import Mathlib

/-!
# gbelt metrics: user and repository snapshots

A shallow embedding of `src/metrics/types.go` (package `metrics`) and the
properties of its two constructors, `NewRepoMetrics` and `NewUserMetrics`.

Modelling conventions

* The hosting service behind `github.Client` is an external collaborator. It is
  a value of type `Client`: one answer per request, for the three requests the
  package issues (`Users.Get`, `Repositories.List`, `Repositories.Get`).
  `InitGithubClient` builds a fresh handle from the same environment token at
  every call, so every handle of one run is the same `Client`; the unexported
  handle fields `client` and `ctx` of both structs carry no metric and are left
  out of the records.
* A Go result pair `(value, err)` is an `Except GoError value`.
* `log.Fatalln` ends the process: a constructor run is an `Outcome`, either
  `returned v` or `fatal err`. The `return m` written after `log.Fatalln` is
  never reached.
* Pointer fields of the go-github response structs (`*string`, `*bool`, `*int`)
  are `Option`s, read through the nil-safe getters `GetX`, which give the zero
  value for a nil field. A nil `*Repository` in a listing reads, through those
  getters, like a `Repository` with every field nil.
* Go `int` is an `Int` in the range of the 64-bit two's-complement type of the
  supported 64-bit targets, and `wrapInt` is the wraparound of its arithmetic.
  The only arithmetic written in the source is `m.AutoredRepos--`, on a counter
  that starts at `len(repos)` and is lowered at most `len(repos)` times, so it
  stays inside `[0, len(repos)]` and cannot wrap.
* The method `addStars`, called at line 91, has no body in the source tree; it
  is `UserMetrics.addStars` below, after the words of the spec, adding into the
  `int` field `Stars` (line 25) with the wraparound of that type.
* A nil slice and a slice of length zero are both the empty list; a nil map is
  `none` and a map made by `make` is `some []`.
-/

namespace metrics

/-! ## Response types of the hosting client (go-github) -/

/-- Go `error` values, identified by their message. -/
structure GoError where
  msg : String
  deriving DecidableEq, Repr

/-- The fields of `github.User` that the package reads. -/
structure User where
  Email : Option String
  Location : Option String
  deriving DecidableEq, Repr

/-- The fields of `github.Repository` that the package reads. -/
structure Repository where
  Name : Option String
  Fork : Option Bool
  Language : Option String
  StargazersCount : Option Int
  ForksCount : Option Int
  deriving DecidableEq, Repr

/-- The options of a listing request, `github.RepositoryListOptions`; its
fields `Type` and `Sort` are keywords here and carry an underscore. -/
structure RepositoryListOptions where
  Type_ : String
  Sort_ : String
  Direction : String
  deriving DecidableEq, Repr

/-- Getter `(*User).GetEmail`: the empty string for a nil field. -/
def User.GetEmail (u : User) : String := u.Email.getD ""

/-- Getter `(*User).GetLocation`: the empty string for a nil field. -/
def User.GetLocation (u : User) : String := u.Location.getD ""

/-- Getter `(*Repository).GetName`. -/
def Repository.GetName (r : Repository) : String := r.Name.getD ""

/-- Getter `(*Repository).GetFork`: `false` for a nil field. -/
def Repository.GetFork (r : Repository) : Bool := r.Fork.getD false

/-- Getter `(*Repository).GetLanguage`. -/
def Repository.GetLanguage (r : Repository) : String := r.Language.getD ""

/-- Getter `(*Repository).GetStargazersCount`: `0` for a nil field. -/
def Repository.GetStargazersCount (r : Repository) : Int := r.StargazersCount.getD 0

/-- Getter `(*Repository).GetForksCount`: `0` for a nil field. -/
def Repository.GetForksCount (r : Repository) : Int := r.ForksCount.getD 0

/-- The hosting service as seen through `github.Client`: the answer to each of
the three requests of the package. -/
structure Client where
  usersGet : String → Except GoError User
  reposList : String → RepositoryListOptions → Except GoError (List Repository)
  reposGet : String → String → Except GoError Repository

/-- A run of a constructor: it returns a value, or `log.Fatalln` ends the
process with the logged error. -/
inductive Outcome (α : Type) where
  | returned (v : α)
  | fatal (err : GoError)
  deriving DecidableEq, Repr

/-- The run ended in `log.Fatalln`. -/
def Outcome.aborts {α : Type} : Outcome α → Bool
  | .returned _ => false
  | .fatal _ => true

/-! ## The data model (types.go, lines 16-46) -/

/-- A `time.Time` value; the zero value has every field zero. -/
structure Time where
  wall : Nat
  ext : Int
  loc : Option String
  deriving DecidableEq, Repr

/-- The zero `time.Time`. -/
def Time.zero : Time := { wall := 0, ext := 0, loc := none }

/-- Struct `RepoMetrics` (lines 31-46). `Speed` holds the IEEE-754 bits of the
`float64`, whose zero value is `0`. -/
structure RepoMetrics where
  repo : Option Repository
  Name : String
  Owner : String
  Stars : Int
  Forks : Int
  ContributorsCount : Int
  MainLanguage : String
  Languages : Option (List (String × Int))
  LastCommit : Time
  Speed : Nat
  IssuesOpen : Int
  IssuesClosed : Int
  deriving DecidableEq, Repr

/-- Struct `UserMetrics` (lines 17-28). -/
structure UserMetrics where
  user : Option User
  repos : List RepoMetrics
  Username : String
  Email : String
  Location : String
  Stars : Int
  AutoredRepos : Int
  Languages : Option (List (String × Int))
  deriving DecidableEq, Repr

/-- The composite literal `RepoMetrics{Name: name, Owner: owner}` (line 98):
every other field has its zero value. -/
def RepoMetrics.literal (name owner : String) : RepoMetrics :=
  { repo := none, Name := name, Owner := owner, Stars := 0, Forks := 0,
    ContributorsCount := 0, MainLanguage := "", Languages := none,
    LastCommit := Time.zero, Speed := 0, IssuesOpen := 0, IssuesClosed := 0 }

/-- The composite literal `UserMetrics{Username: name, Stars: 0, AutoredRepos: 0}`
(line 61). -/
def UserMetrics.literal (name : String) : UserMetrics :=
  { user := none, repos := [], Username := name, Email := "", Location := "",
    Stars := 0, AutoredRepos := 0, Languages := none }

/-! ## The constructors (types.go, lines 59-110) -/

/-- Function `NewRepoMetrics` (lines 97-110): one `Repositories.Get`; fatal on
error, else three fields copied from the response. -/
def NewRepoMetrics (c : Client) (owner name : String) : Outcome RepoMetrics :=
  let m := RepoMetrics.literal name owner
  match c.reposGet owner name with
  | .error err => .fatal err
  | .ok repo =>
    .returned { m with
      repo := some repo,
      Stars := repo.GetStargazersCount,
      Forks := repo.GetForksCount,
      MainLanguage := repo.GetLanguage }

/-- The value that a Go `int` holds after an arithmetic result `x`: the
representative of `x` modulo `2^64` in `[-2^63, 2^63)`. -/
def wrapInt (x : Int) : Int :=
  (x + 9223372036854775808) % 18446744073709551616 - 9223372036854775808

/-- Modelled from the spec: the method `addStars` of `UserMetrics`, called at
line 91 of types.go, whose body is not in the source tree. The spec (4.3, step 4)
has the construction "add its star count to the running user star total": the
method adds its argument to `Stars` and touches nothing else. `Stars` is a Go
`int` (line 25), so the addition is the wrapping addition of that type. -/
def UserMetrics.addStars (m : UserMetrics) (n : Int) : UserMetrics :=
  { m with Stars := wrapInt (m.Stars + n) }

/-- The test of line 85: the listed repository is skipped. -/
def excluded (repo : Repository) : Bool :=
  repo.GetFork || repo.GetLanguage == ""

/-- The `for _, repo := range repos` loop of `initRepoMetrics` (lines 84-92),
run on the repositories still to visit. -/
def rangeRepos (c : Client) : UserMetrics → List Repository → Outcome UserMetrics
  | m, [] => .returned m
  | m, repo :: rest =>
    if excluded repo then
      rangeRepos c { m with AutoredRepos := m.AutoredRepos - 1 } rest
    else
      match NewRepoMetrics c m.Username repo.GetName with
      | .fatal err => .fatal err
      | .returned repoMetric =>
        let m := { m with repos := m.repos ++ [repoMetric] }
        rangeRepos c (m.addStars repoMetric.Stars) rest

/-- The listing options built at line 77. -/
def listOptions : RepositoryListOptions :=
  { Type_ := "owner", Sort_ := "updated", Direction := "desc" }

/-- Method `initRepoMetrics` (lines 76-94): the receiver after the call together
with the returned `error` (`none` for nil). -/
def initRepoMetrics (c : Client) (m : UserMetrics) : Outcome (UserMetrics × Option GoError) :=
  let opt := listOptions
  match c.reposList m.Username opt with
  | .error err => .returned (m, some err)
  | .ok repos =>
    let m := { m with AutoredRepos := (repos.length : Int) }
    let m := { m with repos := [] }
    match rangeRepos c m repos with
    | .fatal err => .fatal err
    | .returned m => .returned (m, none)

/-- Function `NewUserMetrics` (lines 60-74). -/
def NewUserMetrics (c : Client) (name : String) : Outcome UserMetrics :=
  let m := UserMetrics.literal name
  let m := { m with Languages := some [] }
  match c.usersGet name with
  | .error err => .fatal err
  | .ok user =>
    let m := { m with user := some user }
    let m := { m with Email := user.GetEmail }
    let m := { m with Location := user.GetLocation }
    match initRepoMetrics c m with
    | .fatal err => .fatal err
    | .returned (m, _) => .returned m

/-! ## Specification vocabulary -/

/-- The listed repositories that pass the test of line 85, in listing order. -/
def qualifying (repos : List Repository) : List Repository :=
  repos.filter (fun r => !excluded r)

/-- The running star total after the star counts `xs` have been added, one call
of `addStars` each, to the total `s`. -/
def goSum (s : Int) (xs : List Int) : Int :=
  xs.foldl (fun acc n => wrapInt (acc + n)) s

/-- The number of listed repositories that are skipped at line 85. -/
def excludedCount (repos : List Repository) : Nat :=
  (repos.filter excluded).length

/-- The entry that the loop appends for a listed repository: the result of
`NewRepoMetrics` for its name, with the bare literal standing in where the
fetch fails (a case in which nothing is appended). -/
def entryFor (c : Client) (owner : String) (r : Repository) : RepoMetrics :=
  match NewRepoMetrics c owner r.GetName with
  | .returned rm => rm
  | .fatal _ => RepoMetrics.literal r.GetName owner

/-! ## Example services: alice of the spec (section 8) and others -/

/-- A listed or fetched repository with the given name, fork flag, language and
star count. -/
def mkRepo (name : String) (fork : Bool) (lang : String) (stars : Int) : Repository :=
  { Name := some name, Fork := some fork, Language := some lang,
    StargazersCount := some stars, ForksCount := none }

/-- The three repositories of alice. -/
def aliceRepos : List Repository :=
  [mkRepo "a" false "Go" 10, mkRepo "b" true "Go" 99, mkRepo "c" false "" 5]

/-- A service that knows alice and her three repositories and nothing else. -/
def aliceClient : Client :=
  { usersGet := fun name =>
      if name = "alice" then .ok { Email := some "alice@example.org", Location := none }
      else .error ⟨"404 Not Found"⟩,
    reposList := fun name _ =>
      if name = "alice" then .ok aliceRepos else .error ⟨"404 Not Found"⟩,
    reposGet := fun owner name =>
      match aliceRepos.find? (fun r => owner = "alice" ∧ r.GetName = name) with
      | some r => .ok r
      | none => .error ⟨"404 Not Found"⟩ }

/-- A service for user bob whose two listed repositories are forks; every
request for the details of a repository fails. -/
def forksClient : Client :=
  { usersGet := fun _ => .ok { Email := none, Location := some "Lagos" },
    reposList := fun _ _ => .ok [mkRepo "x" true "Go" 7, mkRepo "y" true "" 3],
    reposGet := fun _ _ => .error ⟨"403 rate limit exceeded"⟩ }

/-- A service for user carol whose profile is served and whose listing fails. -/
def noListingClient : Client :=
  { usersGet := fun _ => .ok { Email := some "carol@example.org", Location := none },
    reposList := fun _ _ => .error ⟨"502 Bad Gateway"⟩,
    reposGet := fun _ _ => .error ⟨"502 Bad Gateway"⟩ }

/-- The service of alice with her listing served in the opposite order. -/
def aliceClientReversed : Client :=
  { aliceClient with
    reposList := fun name _ =>
      if name = "alice" then .ok aliceRepos.reverse else .error ⟨"404 Not Found"⟩ }

/-- A service whose listing reports the language Go for repository a of user
dave while the details of that repository carry no language. -/
def driftClient : Client :=
  { usersGet := fun _ => .ok { Email := none, Location := none },
    reposList := fun _ _ => .ok [mkRepo "a" false "Go" 10],
    reposGet := fun _ _ =>
      .ok { Name := some "a", Fork := some false, Language := none,
            StargazersCount := some 10, ForksCount := some 0 } }

/-- The two repositories of erin, both her own, whose star counts are the
largest Go `int` and one. -/
def overflowRepos : List Repository :=
  [mkRepo "p" false "Go" 9223372036854775807, mkRepo "q" false "Go" 1]

/-- The service of erin: her listing, and the details of each listed
repository as listed. -/
def overflowClient : Client :=
  { usersGet := fun _ => .ok { Email := none, Location := none },
    reposList := fun _ _ => .ok overflowRepos,
    reposGet := fun _ name =>
      match overflowRepos.find? (fun r => r.GetName = name) with
      | some r => .ok r
      | none => .error ⟨"404 Not Found"⟩ }

/-- A service for user frank whose listing has the name a twice, once for a
repository of his own and once for a fork. -/
def duplicateClient : Client :=
  { usersGet := fun _ => .ok { Email := none, Location := none },
    reposList := fun _ _ => .ok [mkRepo "a" false "Go" 10, mkRepo "a" true "Go" 10],
    reposGet := fun _ _ => .ok (mkRepo "a" false "Go" 10) }

/-! ## Arithmetic of the star total -/

theorem wrapInt_zero : wrapInt 0 = 0 := by decide

theorem wrapInt_of_fits {x : Int} (hlo : -9223372036854775808 ≤ x)
    (hhi : x < 9223372036854775808) : wrapInt x = x := by
  unfold wrapInt
  omega

theorem wrapInt_wrapInt_add (a b : Int) : wrapInt (wrapInt a + b) = wrapInt (a + b) := by
  unfold wrapInt
  omega

theorem goSum_wrapInt (xs : List Int) :
    ∀ s : Int, goSum (wrapInt s) xs = wrapInt (s + xs.sum) := by
  induction xs with
  | nil => intro s; simp [goSum]
  | cons x rest ih =>
    intro s
    have h := ih (wrapInt s + x)
    simp only [goSum, List.foldl_cons, List.sum_cons] at h ⊢
    rw [h, add_assoc, wrapInt_wrapInt_add]

theorem goSum_zero (xs : List Int) : goSum 0 xs = wrapInt xs.sum := by
  have h := goSum_wrapInt xs 0
  rw [wrapInt_zero, zero_add] at h
  exact h

/-! ## The loop -/

theorem excluded_iff (r : Repository) :
    excluded r = true ↔ r.GetFork = true ∨ r.GetLanguage = "" := by
  simp [excluded]

theorem excluded_eq_false_iff (r : Repository) :
    excluded r = false ↔ r.GetFork = false ∧ r.GetLanguage ≠ "" := by
  simp [excluded]

theorem qualifying_cons_excluded {r : Repository} (rest : List Repository)
    (h : excluded r = true) : qualifying (r :: rest) = qualifying rest := by
  simp [qualifying, h]

theorem qualifying_cons_kept {r : Repository} (rest : List Repository)
    (h : excluded r = false) : qualifying (r :: rest) = r :: qualifying rest := by
  simp [qualifying, h]

theorem mem_qualifying {r : Repository} {repos : List Repository} :
    r ∈ qualifying repos ↔ r ∈ repos ∧ excluded r = false := by
  simp [qualifying]

theorem excludedCount_add_qualifying (repos : List Repository) :
    excludedCount repos + (qualifying repos).length = repos.length := by
  induction repos with
  | nil => rfl
  | cons r rest ih =>
    cases h : excluded r
    · simp [excludedCount, qualifying, h] at ih ⊢
      omega
    · simp [excludedCount, qualifying, h] at ih ⊢
      omega

/-- The loop, when every fetch it issues succeeds: it returns, the counter is
lowered once per skipped repository, and one entry and its stars are added per
repository kept. -/
theorem rangeRepos_returned (c : Client) (name : String) (built : Repository → RepoMetrics) :
    ∀ (repos : List Repository) (m : UserMetrics), m.Username = name →
      (∀ r ∈ repos, excluded r = false →
        NewRepoMetrics c name r.GetName = .returned (built r)) →
      rangeRepos c m repos = .returned
        { m with
          AutoredRepos := m.AutoredRepos - (excludedCount repos : Int),
          repos := m.repos ++ (qualifying repos).map built,
          Stars := goSum m.Stars ((qualifying repos).map (fun r => (built r).Stars)) } := by
  intro repos
  induction repos with
  | nil => intro m _ _; simp [rangeRepos, excludedCount, qualifying, goSum]
  | cons r rest ih =>
    intro m hm hb
    have hrest : ∀ r ∈ rest, excluded r = false →
        NewRepoMetrics c name r.GetName = .returned (built r) :=
      fun x hx => hb x (List.mem_cons_of_mem _ hx)
    cases h : excluded r
    · have hr := hb r (List.mem_cons_self _ _) h
      rw [rangeRepos, if_neg (by simp [h]), hm, hr]
      simp only []
      rw [ih _ (by simp [UserMetrics.addStars, hm]) hrest]
      simp [UserMetrics.addStars, excludedCount, qualifying, h, goSum]
    · rw [rangeRepos, if_pos h, ih _ (by simpa using hm) hrest]
      simp [excludedCount, qualifying, h]
      omega

/-- The loop ends the process as soon as a fetch it issues fails. -/
theorem rangeRepos_aborts (c : Client) (name : String) :
    ∀ (repos : List Repository) (m : UserMetrics), m.Username = name →
      (∃ r ∈ repos, excluded r = false ∧ (NewRepoMetrics c name r.GetName).aborts) →
      (rangeRepos c m repos).aborts := by
  intro repos
  induction repos with
  | nil => intro m _ h; simp at h
  | cons r rest ih =>
    intro m hm h
    obtain ⟨x, hx, hex, hab⟩ := h
    cases hr : excluded r
    · rw [rangeRepos, if_neg (by simp [hr]), hm]
      cases hn : NewRepoMetrics c name r.GetName with
      | fatal err => simp [Outcome.aborts]
      | returned rm =>
        simp only []
        apply ih _ (by simp [UserMetrics.addStars, hm])
        rcases List.mem_cons.mp hx with rfl | hx
        · rw [hn] at hab; exact absurd hab (by simp [Outcome.aborts])
        · exact ⟨x, hx, hex, hab⟩
    · rw [rangeRepos, if_pos hr]
      apply ih _ (by simpa using hm)
      rcases List.mem_cons.mp hx with rfl | hx
      · rw [hr] at hex; cases hex
      · exact ⟨x, hx, hex, hab⟩

/-! ## The two constructors -/

/-- The entity that `NewRepoMetrics` returns when its fetch answers `repo`. -/
theorem NewRepoMetrics_ok {c : Client} {owner name : String} {repo : Repository}
    (h : c.reposGet owner name = .ok repo) :
    NewRepoMetrics c owner name = .returned
      { RepoMetrics.literal name owner with
        repo := some repo,
        Stars := repo.GetStargazersCount,
        Forks := repo.GetForksCount,
        MainLanguage := repo.GetLanguage } := by
  simp [NewRepoMetrics, h]

theorem NewRepoMetrics_aborts_iff (c : Client) (owner name : String) :
    (NewRepoMetrics c owner name).aborts ↔ ∃ err, c.reposGet owner name = .error err := by
  unfold NewRepoMetrics
  cases h : c.reposGet owner name <;> simp [Outcome.aborts]

theorem NewRepoMetrics_returned_iff {c : Client} {owner name : String} {rm : RepoMetrics} :
    NewRepoMetrics c owner name = .returned rm ↔
      ∃ repo, c.reposGet owner name = .ok repo ∧
        rm = { RepoMetrics.literal name owner with
               repo := some repo,
               Stars := repo.GetStargazersCount,
               Forks := repo.GetForksCount,
               MainLanguage := repo.GetLanguage } := by
  unfold NewRepoMetrics
  cases h : c.reposGet owner name <;> simp [eq_comm]

theorem NewRepoMetrics_eq_entryFor {c : Client} {owner : String} {r : Repository}
    (h : ¬ (NewRepoMetrics c owner r.GetName).aborts) :
    NewRepoMetrics c owner r.GetName = .returned (entryFor c owner r) := by
  unfold entryFor
  cases hn : NewRepoMetrics c owner r.GetName with
  | returned rm => rfl
  | fatal err => rw [hn] at h; exact absurd rfl h

/-- The user entity, when the profile fetch, the listing and every fetch of the
loop succeed. -/
theorem NewUserMetrics_returned {c : Client} {name : String} {user : User}
    {repos : List Repository} (built : Repository → RepoMetrics)
    (hu : c.usersGet name = .ok user)
    (hl : c.reposList name listOptions = .ok repos)
    (hd : ∀ r ∈ repos, excluded r = false →
      NewRepoMetrics c name r.GetName = .returned (built r)) :
    NewUserMetrics c name = .returned
      { user := some user,
        repos := (qualifying repos).map built,
        Username := name,
        Email := user.GetEmail,
        Location := user.GetLocation,
        Stars := wrapInt ((qualifying repos).map (fun r => (built r).Stars)).sum,
        AutoredRepos := (repos.length : Int) - (excludedCount repos : Int),
        Languages := some [] } := by
  simp only [NewUserMetrics, hu, initRepoMetrics, UserMetrics.literal, hl]
  rw [rangeRepos_returned c name built repos _ rfl hd]
  simp [goSum_zero]

/-- The user entity, when the profile fetch succeeds and the listing fails. -/
theorem NewUserMetrics_listing_failed {c : Client} {name : String} {user : User}
    {err : GoError} (hu : c.usersGet name = .ok user)
    (hl : c.reposList name listOptions = .error err) :
    NewUserMetrics c name = .returned
      { user := some user, repos := [], Username := name, Email := user.GetEmail,
        Location := user.GetLocation, Stars := 0, AutoredRepos := 0,
        Languages := some [] } := by
  simp [NewUserMetrics, hu, initRepoMetrics, UserMetrics.literal, hl]

/-- The process ends in `NewUserMetrics` exactly when the profile fetch fails, or
the listing succeeds and a fetch of the loop fails. -/
theorem NewUserMetrics_aborts_iff (c : Client) (name : String) :
    (NewUserMetrics c name).aborts ↔
      (∃ err, c.usersGet name = .error err) ∨
      ∃ repos, c.reposList name listOptions = .ok repos ∧
        ∃ r ∈ repos, excluded r = false ∧ (NewRepoMetrics c name r.GetName).aborts := by
  cases hu : c.usersGet name with
  | error err => simp [NewUserMetrics, hu, Outcome.aborts]
  | ok user =>
    cases hl : c.reposList name listOptions with
    | error err =>
      rw [NewUserMetrics_listing_failed hu hl]
      simp [Outcome.aborts]
    | ok repos =>
      by_cases hex : ∃ r ∈ repos, excluded r = false ∧ (NewRepoMetrics c name r.GetName).aborts
      · have hab := rangeRepos_aborts c name repos
          { user := some user, repos := [], Username := name, Email := user.GetEmail,
            Location := user.GetLocation, Stars := 0, AutoredRepos := (repos.length : Int),
            Languages := some [] } rfl hex
        have : (NewUserMetrics c name).aborts := by
          simp only [NewUserMetrics, hu, initRepoMetrics, UserMetrics.literal, hl]
          revert hab
          cases rangeRepos c _ repos <;> simp [Outcome.aborts]
        simp only [this, true_iff]
        exact Or.inr ⟨repos, rfl, hex⟩
      · have hd : ∀ r ∈ repos, excluded r = false →
            NewRepoMetrics c name r.GetName = .returned (entryFor c name r) := by
          intro r hr he
          exact NewRepoMetrics_eq_entryFor (fun hab => hex ⟨r, hr, he, hab⟩)
        rw [NewUserMetrics_returned (entryFor c name) hu hl hd]
        constructor
        · intro h
          cases h
        · rintro (⟨err, herr⟩ | ⟨repos2, h1, h2⟩)
          · cases herr
          · cases h1
            exact absurd h2 hex

/-- A returned user entity, read back: the profile fetch succeeded, and either
the listing failed or every fetch of the loop succeeded. -/
theorem NewUserMetrics_returned_cases {c : Client} {name : String} {m : UserMetrics}
    (h : NewUserMetrics c name = .returned m) :
    ∃ user, c.usersGet name = .ok user ∧
      ((∃ err, c.reposList name listOptions = .error err ∧
          m = { user := some user, repos := [], Username := name, Email := user.GetEmail,
                Location := user.GetLocation, Stars := 0, AutoredRepos := 0,
                Languages := some [] }) ∨
       (∃ repos, c.reposList name listOptions = .ok repos ∧
          (∀ r ∈ repos, excluded r = false →
            NewRepoMetrics c name r.GetName = .returned (entryFor c name r)) ∧
          m = { user := some user,
                repos := (qualifying repos).map (entryFor c name),
                Username := name,
                Email := user.GetEmail,
                Location := user.GetLocation,
                Stars := wrapInt
                  ((qualifying repos).map (fun r => (entryFor c name r).Stars)).sum,
                AutoredRepos := (repos.length : Int) - (excludedCount repos : Int),
                Languages := some [] })) := by
  have hna : ¬ (NewUserMetrics c name).aborts := by rw [h]; simp [Outcome.aborts]
  rw [NewUserMetrics_aborts_iff] at hna
  simp only [not_or, not_exists] at hna
  obtain ⟨hna1, hna2⟩ := hna
  cases hu : c.usersGet name with
  | error err => exact absurd hu (hna1 err)
  | ok user =>
    refine ⟨user, rfl, ?_⟩
    cases hl : c.reposList name listOptions with
    | error err =>
      rw [NewUserMetrics_listing_failed hu hl] at h
      exact Or.inl ⟨err, rfl, (Outcome.returned.inj h).symm⟩
    | ok repos =>
      have hd : ∀ r ∈ repos, excluded r = false →
          NewRepoMetrics c name r.GetName = .returned (entryFor c name r) := by
        intro r hr he
        exact NewRepoMetrics_eq_entryFor
          (fun hab => hna2 repos ⟨hl, r, hr, he, hab⟩)
      rw [NewUserMetrics_returned (entryFor c name) hu hl hd] at h
      exact Or.inr ⟨repos, rfl, hd, (Outcome.returned.inj h).symm⟩

/-! ## The claims -/

/-- Claim C1, as the code has it: when the profile fetch, the listing and every
fetch of the loop succeed, `NewUserMetrics` returns an entity whose `Stars` is
the sum, over exactly the listed repositories with fork false and a non-empty
language, of the `Stars` of the `RepoMetrics` that `NewRepoMetrics` builds for
them, taken in the wrapping arithmetic of the Go `int` field; forks and
repositories without a language add nothing. Whenever that sum lies within the
range of `int`, `Stars` is the sum itself. -/
theorem stars_eq_wrapped_sum_of_qualifying (c : Client) (name : String) (user : User)
    (repos : List Repository) (built : Repository → RepoMetrics)
    (hu : c.usersGet name = .ok user)
    (hl : c.reposList name listOptions = .ok repos)
    (hd : ∀ r ∈ repos, r.GetFork = false → r.GetLanguage ≠ "" →
      NewRepoMetrics c name r.GetName = .returned (built r)) :
    ∃ m, NewUserMetrics c name = .returned m ∧
      m.Stars =
        wrapInt ((repos.filter (fun r => r.GetFork = false ∧ r.GetLanguage ≠ "")).map
          (fun r => (built r).Stars)).sum ∧
      (-9223372036854775808 ≤
          ((repos.filter (fun r => r.GetFork = false ∧ r.GetLanguage ≠ "")).map
            (fun r => (built r).Stars)).sum →
        ((repos.filter (fun r => r.GetFork = false ∧ r.GetLanguage ≠ "")).map
            (fun r => (built r).Stars)).sum < 9223372036854775808 →
        m.Stars =
          ((repos.filter (fun r => r.GetFork = false ∧ r.GetLanguage ≠ "")).map
            (fun r => (built r).Stars)).sum) := by
  have hd2 : ∀ r ∈ repos, excluded r = false →
      NewRepoMetrics c name r.GetName = .returned (built r) := by
    intro r hr he
    obtain ⟨h1, h2⟩ := (excluded_eq_false_iff r).mp he
    exact hd r hr h1 h2
  have hq : qualifying repos
      = repos.filter (fun r => r.GetFork = false ∧ r.GetLanguage ≠ "") := by
    unfold qualifying
    apply List.filter_congr
    intro r _
    rw [Bool.eq_iff_iff]
    simp [excluded]
  refine ⟨_, NewUserMetrics_returned built hu hl hd2, ?_, ?_⟩
  · simp only [hq]
  · intro hlo hhi
    simp only [hq]
    exact wrapInt_of_fits hlo hhi

theorem stars_eq_wrapped_sum_of_qualifying_witness :
    (aliceClient.usersGet "alice"
        = .ok { Email := some "alice@example.org", Location := none } ∧
      aliceClient.reposList "alice" listOptions = .ok aliceRepos ∧
      (∀ r ∈ aliceRepos, r.GetFork = false → r.GetLanguage ≠ "" →
        NewRepoMetrics aliceClient "alice" r.GetName
          = .returned (entryFor aliceClient "alice" r))) ∧
    ∃ m, NewUserMetrics aliceClient "alice" = .returned m ∧ m.Stars = 10 ∧
      m.Stars =
        ((aliceRepos.filter (fun r => r.GetFork = false ∧ r.GetLanguage ≠ "")).map
          (fun r => (entryFor aliceClient "alice" r).Stars)).sum := by
  refine ⟨⟨rfl, rfl, by decide⟩, ?_⟩
  obtain ⟨m, hm, hs, hfit⟩ :=
    stars_eq_wrapped_sum_of_qualifying aliceClient "alice" _ aliceRepos
      (entryFor aliceClient "alice") rfl rfl (by decide)
  exact ⟨m, hm, hs.trans (by decide), hfit (by decide) (by decide)⟩

/-- Against claim C1 as stated: erin has two repositories of her own, with
9223372036854775807 stars and 1 star; every fetch succeeds and `NewUserMetrics`
returns, with a `Stars` of -9223372036854775808, which is not the sum
9223372036854775808 of the two star counts. -/
theorem stars_sum_overflow_example :
    (overflowClient.usersGet "erin" = .ok { Email := none, Location := none } ∧
      overflowClient.reposList "erin" listOptions = .ok overflowRepos ∧
      (∀ r ∈ overflowRepos, r.GetFork = false → r.GetLanguage ≠ "" →
        NewRepoMetrics overflowClient "erin" r.GetName
          = .returned (entryFor overflowClient "erin" r))) ∧
    ∃ m, NewUserMetrics overflowClient "erin" = .returned m ∧
      m.Stars = -9223372036854775808 ∧
      ((overflowRepos.filter (fun r => r.GetFork = false ∧ r.GetLanguage ≠ "")).map
          (fun r => (entryFor overflowClient "erin" r).Stars)).sum = 9223372036854775808 ∧
      m.Stars ≠
        ((overflowRepos.filter (fun r => r.GetFork = false ∧ r.GetLanguage ≠ "")).map
          (fun r => (entryFor overflowClient "erin" r).Stars)).sum := by
  refine ⟨⟨rfl, rfl, by decide⟩, ?_⟩
  have hval : NewUserMetrics overflowClient "erin" = .returned
      { user := some { Email := none, Location := none },
        repos := overflowRepos.map (entryFor overflowClient "erin"),
        Username := "erin", Email := "", Location := "",
        Stars := -9223372036854775808, AutoredRepos := 2, Languages := some [] } := by
    decide
  exact ⟨_, hval, rfl, by decide, by decide⟩

/-- Claim C2, as the code has it: when the listing succeeds and
`NewUserMetrics` returns, `AutoredRepos` is the length of the listing minus the
number of listed repositories that are forks or have no language, and the owned
collection holds, in order, exactly one entry for each listed repository that
is not excluded, the result of `NewRepoMetrics` for it, and none for an
excluded one; when the listed names are pairwise distinct, no entry bears the
name of an excluded repository. -/
theorem authored_eq_length_sub_excluded (c : Client) (name : String)
    (repos : List Repository) (m : UserMetrics)
    (hl : c.reposList name listOptions = .ok repos)
    (hr : NewUserMetrics c name = .returned m) :
    m.AutoredRepos
        = (repos.length : Int)
          - ((repos.filter (fun r => r.GetFork = true ∨ r.GetLanguage = "")).length : Int) ∧
      List.Forall₂ (fun r rm => NewRepoMetrics c name r.GetName = .returned rm)
        (repos.filter (fun r => ¬ (r.GetFork = true ∨ r.GetLanguage = ""))) m.repos ∧
      ((repos.map Repository.GetName).Nodup →
        ∀ r ∈ repos, (r.GetFork = true ∨ r.GetLanguage = "") →
          ∀ rm ∈ m.repos, rm.Name ≠ r.GetName) := by
  have hq : repos.filter (fun r => ¬ (r.GetFork = true ∨ r.GetLanguage = ""))
      = qualifying repos := by
    unfold qualifying
    apply List.filter_congr
    intro r _
    rw [Bool.eq_iff_iff]
    simp [excluded]
  have he : (repos.filter (fun r => r.GetFork = true ∨ r.GetLanguage = "")).length
      = excludedCount repos := by
    unfold excludedCount
    congr 1
    apply List.filter_congr
    intro r _
    rw [Bool.eq_iff_iff]
    simp [excluded]
  obtain ⟨user, _, hcase⟩ := NewUserMetrics_returned_cases hr
  rcases hcase with ⟨err, hl2, _⟩ | ⟨repos2, hl2, hd, hm⟩
  · rw [hl] at hl2; cases hl2
  · rw [hl] at hl2
    cases hl2
    rw [hq, he]
    have hfor : List.Forall₂ (fun r rm => NewRepoMetrics c name r.GetName = .returned rm)
        (qualifying repos) m.repos := by
      rw [hm]
      simp only [List.forall₂_map_right_iff, List.forall₂_same]
      intro r hrq
      exact hd r (mem_qualifying.mp hrq).1 (mem_qualifying.mp hrq).2
    refine ⟨by rw [hm], hfor, ?_⟩
    intro hnd r hrm hex rm hrmm hname
    rw [hm] at hrmm
    simp only [List.mem_map] at hrmm
    obtain ⟨r2, hr2, hrm2⟩ := hrmm
    have hr2mem := (mem_qualifying.mp hr2).1
    have hr2ex := (mem_qualifying.mp hr2).2
    have hbuilt := hd r2 hr2mem hr2ex
    rw [hrm2] at hbuilt
    obtain ⟨d, _, hrmd⟩ := NewRepoMetrics_returned_iff.mp hbuilt
    have hn2 : rm.Name = r2.GetName := by rw [hrmd]; rfl
    have heq : r2 = r :=
      List.inj_on_of_nodup_map hnd hr2mem hrm (hn2.symm.trans hname)
    rw [heq] at hr2ex
    have := (excluded_iff r).mpr hex
    rw [this] at hr2ex
    cases hr2ex

theorem authored_eq_length_sub_excluded_witness :
    (aliceClient.reposList "alice" listOptions = .ok aliceRepos ∧
      NewUserMetrics aliceClient "alice" = .returned
        { user := some { Email := some "alice@example.org", Location := none },
          repos := [entryFor aliceClient "alice" (mkRepo "a" false "Go" 10)],
          Username := "alice", Email := "alice@example.org", Location := "",
          Stars := 10, AutoredRepos := 1, Languages := some [] } ∧
      (aliceRepos.map Repository.GetName).Nodup) ∧
    ((1 : Int)
        = (aliceRepos.length : Int)
          - ((aliceRepos.filter (fun r => r.GetFork = true ∨ r.GetLanguage = "")).length : Int) ∧
      List.Forall₂ (fun r rm => NewRepoMetrics aliceClient "alice" r.GetName = .returned rm)
        (aliceRepos.filter (fun r => ¬ (r.GetFork = true ∨ r.GetLanguage = "")))
        [entryFor aliceClient "alice" (mkRepo "a" false "Go" 10)] ∧
      (∀ r ∈ aliceRepos, (r.GetFork = true ∨ r.GetLanguage = "") →
        ∀ rm ∈ [entryFor aliceClient "alice" (mkRepo "a" false "Go" 10)],
          rm.Name ≠ r.GetName)) := by
  have hret : NewUserMetrics aliceClient "alice" = .returned
      { user := some { Email := some "alice@example.org", Location := none },
        repos := [entryFor aliceClient "alice" (mkRepo "a" false "Go" 10)],
        Username := "alice", Email := "alice@example.org", Location := "",
        Stars := 10, AutoredRepos := 1, Languages := some [] } := by decide
  have hnd : (aliceRepos.map Repository.GetName).Nodup := by decide
  have h := authored_eq_length_sub_excluded aliceClient "alice" aliceRepos _ rfl hret
  exact ⟨⟨rfl, hret, hnd⟩, h.1, h.2.1, h.2.2 hnd⟩

/-- Against claim C2 as stated: the listing of frank has the name a twice, for a
repository of his own and for a fork. `NewUserMetrics` returns, `AutoredRepos`
is 1, and the owned collection has one entry, named a: the excluded fork a has
an entry of its name in the collection. -/
theorem excluded_name_has_entry_example :
    duplicateClient.reposList "frank" listOptions
      = .ok [mkRepo "a" false "Go" 10, mkRepo "a" true "Go" 10] ∧
    ∃ m, NewUserMetrics duplicateClient "frank" = .returned m ∧
      m.AutoredRepos = 1 ∧
      ∃ r ∈ [mkRepo "a" false "Go" 10, mkRepo "a" true "Go" 10],
        (r.GetFork = true ∨ r.GetLanguage = "") ∧
        ∃ rm ∈ m.repos, rm.Name = r.GetName := by
  have hval : NewUserMetrics duplicateClient "frank" = .returned
      { user := some { Email := none, Location := none },
        repos := [entryFor duplicateClient "frank" (mkRepo "a" false "Go" 10)],
        Username := "frank", Email := "", Location := "",
        Stars := 10, AutoredRepos := 1, Languages := some [] } := by decide
  refine ⟨rfl, _, hval, rfl, mkRepo "a" true "Go" 10, by decide, Or.inl rfl, ?_⟩
  exact ⟨_, List.mem_singleton.mpr rfl, rfl⟩

/-- Claim C3: when the profile fetch succeeds and the listing fails,
`NewUserMetrics` returns (the process does not end), and the entity has the
given username, the email and location of the profile, zero `Stars`, zero
`AutoredRepos`, an empty `Languages` map and no owned repository. -/
theorem listing_failure_returns_profile (c : Client) (name : String) (user : User)
    (err : GoError) (hu : c.usersGet name = .ok user)
    (hl : c.reposList name listOptions = .error err) :
    ∃ m, NewUserMetrics c name = .returned m ∧
      m.Username = name ∧ m.Email = user.Email.getD "" ∧
      m.Location = user.Location.getD "" ∧
      m.Stars = 0 ∧ m.AutoredRepos = 0 ∧ m.Languages = some [] ∧ m.repos = [] :=
  ⟨_, NewUserMetrics_listing_failed hu hl, rfl, rfl, rfl, rfl, rfl, rfl, rfl⟩

theorem listing_failure_returns_profile_witness :
    (noListingClient.usersGet "carol"
        = .ok { Email := some "carol@example.org", Location := none } ∧
      noListingClient.reposList "carol" listOptions = .error ⟨"502 Bad Gateway"⟩) ∧
    ∃ m, NewUserMetrics noListingClient "carol" = .returned m ∧
      m.Username = "carol" ∧ m.Email = "carol@example.org" ∧ m.Location = "" ∧
      m.Stars = 0 ∧ m.AutoredRepos = 0 ∧ m.Languages = some [] ∧ m.repos = [] :=
  ⟨⟨rfl, rfl⟩,
   listing_failure_returns_profile noListingClient "carol"
     { Email := some "carol@example.org", Location := none } ⟨"502 Bad Gateway"⟩ rfl rfl⟩

/-- Claim C4: with `log.Fatalln` as the abort outcome, `NewUserMetrics` aborts
if and only if the profile fetch fails, or the listing succeeds and the detail
fetch fails for a listed repository that is not a fork and has a language; in
particular a failed listing never aborts and the details of an excluded
repository play no part. `NewRepoMetrics` aborts if and only if its fetch
fails. -/
theorem fatal_iff_fetch_failure (c : Client) (name : String) :
    ((NewUserMetrics c name).aborts ↔
      ((∃ err, c.usersGet name = .error err) ∨
        ∃ repos, c.reposList name listOptions = .ok repos ∧
          ∃ r ∈ repos, r.GetFork = false ∧ r.GetLanguage ≠ "" ∧
            ∃ err, c.reposGet name r.GetName = .error err)) ∧
    ((∃ user, c.usersGet name = .ok user) →
      (∃ err, c.reposList name listOptions = .error err) →
      ¬ (NewUserMetrics c name).aborts) ∧
    (∀ owner repoName : String,
      (NewRepoMetrics c owner repoName).aborts ↔
        ∃ err, c.reposGet owner repoName = .error err) := by
  have hiff : (NewUserMetrics c name).aborts ↔
      ((∃ err, c.usersGet name = .error err) ∨
        ∃ repos, c.reposList name listOptions = .ok repos ∧
          ∃ r ∈ repos, r.GetFork = false ∧ r.GetLanguage ≠ "" ∧
            ∃ err, c.reposGet name r.GetName = .error err) := by
    rw [NewUserMetrics_aborts_iff]
    simp only [excluded_eq_false_iff, NewRepoMetrics_aborts_iff, and_assoc]
  refine ⟨hiff, ?_, NewRepoMetrics_aborts_iff c⟩
  rintro ⟨user, hu⟩ ⟨err, hl⟩
  rw [NewUserMetrics_listing_failed hu hl]
  simp [Outcome.aborts]

/-- Claim C5: when the fetch answers, `NewRepoMetrics` returns an entity with
the given name and owner, the stargazers count, forks count and language of the
response (zero and the empty string for absent fields), and the zero value in
`ContributorsCount`, `Languages`, `LastCommit`, `Speed`, `IssuesOpen` and
`IssuesClosed`. -/
theorem repo_entity_copies_response (c : Client) (owner name : String) (repo : Repository)
    (h : c.reposGet owner name = .ok repo) :
    NewRepoMetrics c owner name = .returned
      { repo := some repo,
        Name := name,
        Owner := owner,
        Stars := repo.StargazersCount.getD 0,
        Forks := repo.ForksCount.getD 0,
        ContributorsCount := 0,
        MainLanguage := repo.Language.getD "",
        Languages := none,
        LastCommit := { wall := 0, ext := 0, loc := none },
        Speed := 0,
        IssuesOpen := 0,
        IssuesClosed := 0 } :=
  NewRepoMetrics_ok h

theorem repo_entity_copies_response_witness :
    aliceClient.reposGet "alice" "b" = .ok (mkRepo "b" true "Go" 99) ∧
    NewRepoMetrics aliceClient "alice" "b" = .returned
      { repo := some (mkRepo "b" true "Go" 99),
        Name := "b", Owner := "alice", Stars := 99, Forks := 0,
        ContributorsCount := 0, MainLanguage := "Go", Languages := none,
        LastCommit := { wall := 0, ext := 0, loc := none },
        Speed := 0, IssuesOpen := 0, IssuesClosed := 0 } :=
  ⟨rfl,
   repo_entity_copies_response aliceClient "alice" "b" (mkRepo "b" true "Go" 99) rfl⟩

/-- Claim C6: when the profile fetch, the listing and every fetch of the loop
succeed, the owned collection of the returned entity is, in listing order, one
entry per listed repository that is not a fork and has a language, each entry
being the result of `NewRepoMetrics` for the username and the listed name, with
that owner and that name. -/
theorem owned_collection_of_qualifying (c : Client) (name : String) (user : User)
    (repos : List Repository) (built : Repository → RepoMetrics)
    (hu : c.usersGet name = .ok user)
    (hl : c.reposList name listOptions = .ok repos)
    (hd : ∀ r ∈ repos, r.GetFork = false → r.GetLanguage ≠ "" →
      NewRepoMetrics c name r.GetName = .returned (built r)) :
    ∃ m, NewUserMetrics c name = .returned m ∧
      m.repos
        = (repos.filter (fun r => r.GetFork = false ∧ r.GetLanguage ≠ "")).map built ∧
      m.repos.map (fun rm => (rm.Owner, rm.Name))
        = (repos.filter (fun r => r.GetFork = false ∧ r.GetLanguage ≠ "")).map
            (fun r => (name, r.GetName)) := by
  have hd2 : ∀ r ∈ repos, excluded r = false →
      NewRepoMetrics c name r.GetName = .returned (built r) := by
    intro r hr he
    obtain ⟨h1, h2⟩ := (excluded_eq_false_iff r).mp he
    exact hd r hr h1 h2
  have hq : qualifying repos
      = repos.filter (fun r => r.GetFork = false ∧ r.GetLanguage ≠ "") := by
    unfold qualifying
    apply List.filter_congr
    intro r _
    rw [Bool.eq_iff_iff]
    simp [excluded]
  refine ⟨_, NewUserMetrics_returned built hu hl hd2, ?_, ?_⟩
  · simp only [hq]
  · simp only [hq, List.map_map]
    apply List.map_congr_left
    intro r hr
    have hmem := List.mem_filter.mp hr
    have hex : excluded r = false := by
      rw [excluded_eq_false_iff]
      simpa using hmem.2
    obtain ⟨d, _, hrm⟩ := NewRepoMetrics_returned_iff.mp (hd2 r hmem.1 hex)
    simp only [Function.comp_apply, hrm]
    rfl

theorem owned_collection_of_qualifying_witness :
    (aliceClient.usersGet "alice"
        = .ok { Email := some "alice@example.org", Location := none } ∧
      aliceClient.reposList "alice" listOptions
        = .ok [mkRepo "a" false "Go" 10, mkRepo "b" true "Go" 99, mkRepo "c" false "" 5] ∧
      (∀ r ∈ aliceRepos, r.GetFork = false → r.GetLanguage ≠ "" →
        NewRepoMetrics aliceClient "alice" r.GetName
          = .returned (entryFor aliceClient "alice" r))) ∧
    ∃ m, NewUserMetrics aliceClient "alice" = .returned m ∧
      m.AutoredRepos = 1 ∧ m.Stars = 10 ∧
      m.repos =
        [{ repo := some (mkRepo "a" false "Go" 10),
           Name := "a", Owner := "alice", Stars := 10, Forks := 0,
           ContributorsCount := 0, MainLanguage := "Go", Languages := none,
           LastCommit := Time.zero, Speed := 0, IssuesOpen := 0, IssuesClosed := 0 }] := by
  refine ⟨⟨rfl, rfl, by decide⟩, ?_⟩
  obtain ⟨m, hm, hrepos, _⟩ :=
    owned_collection_of_qualifying aliceClient "alice" _ aliceRepos
      (entryFor aliceClient "alice") rfl rfl (by decide)
  have hval : NewUserMetrics aliceClient "alice" = .returned
      { user := some { Email := some "alice@example.org", Location := none },
        repos := [entryFor aliceClient "alice" (mkRepo "a" false "Go" 10)],
        Username := "alice", Email := "alice@example.org", Location := "",
        Stars := 10, AutoredRepos := 1, Languages := some [] } := by decide
  have hmv := Outcome.returned.inj (hm.symm.trans hval)
  refine ⟨m, hm, by rw [hmv], by rw [hmv], ?_⟩
  rw [hrepos]
  decide

/-- Claim C7: when the profile fetch and the listing succeed and every listed
repository is a fork (the empty listing included), `NewUserMetrics` returns
with zero `AutoredRepos`, zero `Stars` and no owned repository, whatever the
length of the listing, the star counts of the forks and the answers to detail
requests. -/
theorem only_forks_gives_zero (c : Client) (name : String) (user : User)
    (repos : List Repository)
    (hu : c.usersGet name = .ok user)
    (hl : c.reposList name listOptions = .ok repos)
    (hf : ∀ r ∈ repos, r.GetFork = true) :
    ∃ m, NewUserMetrics c name = .returned m ∧
      m.AutoredRepos = 0 ∧ m.Stars = 0 ∧ m.repos = [] := by
  have hex : ∀ r ∈ repos, excluded r = true :=
    fun r hr => (excluded_iff r).mpr (Or.inl (hf r hr))
  have hd : ∀ r ∈ repos, excluded r = false →
      NewRepoMetrics c name r.GetName = .returned (entryFor c name r) := by
    intro r hr he
    rw [hex r hr] at he
    cases he
  have hq : qualifying repos = [] := by
    unfold qualifying
    rw [List.filter_eq_nil_iff]
    intro r hr
    simp [hex r hr]
  have hc : excludedCount repos = repos.length := by
    have := excludedCount_add_qualifying repos
    rw [hq] at this
    simpa using this
  refine ⟨_, NewUserMetrics_returned (entryFor c name) hu hl hd, ?_, ?_, ?_⟩
  · simp [hc]
  · simp [hq, wrapInt_zero]
  · simp [hq]

theorem only_forks_gives_zero_witness :
    (forksClient.usersGet "bob" = .ok { Email := none, Location := some "Lagos" } ∧
      forksClient.reposList "bob" listOptions
        = .ok [mkRepo "x" true "Go" 7, mkRepo "y" true "" 3] ∧
      (∀ r ∈ [mkRepo "x" true "Go" 7, mkRepo "y" true "" 3], r.GetFork = true)) ∧
    ∃ m, NewUserMetrics forksClient "bob" = .returned m ∧
      m.AutoredRepos = 0 ∧ m.Stars = 0 ∧ m.repos = [] :=
  ⟨⟨rfl, rfl, by decide⟩,
   only_forks_gives_zero forksClient "bob" { Email := none, Location := some "Lagos" }
     [mkRepo "x" true "Go" 7, mkRepo "y" true "" 3] rfl rfl (by decide)⟩

/-- Claim C8: whenever `NewUserMetrics` returns, the profile fetch succeeded and
the entity has the given username and the email and location of the profile,
the empty string standing for an absent one; the three fields are the same for
any other service that answers the profile request alike, whatever its listing
and repositories. -/
theorem profile_fields_copied (c : Client) (name : String) (m : UserMetrics)
    (h : NewUserMetrics c name = .returned m) :
    ∃ user, c.usersGet name = .ok user ∧
      m.Username = name ∧ m.Email = user.Email.getD "" ∧
      m.Location = user.Location.getD "" ∧
      ∀ (c2 : Client) (m2 : UserMetrics), c2.usersGet name = c.usersGet name →
        NewUserMetrics c2 name = .returned m2 →
        m2.Username = m.Username ∧ m2.Email = m.Email ∧ m2.Location = m.Location := by
  have key : ∀ (c1 : Client) (m1 : UserMetrics), NewUserMetrics c1 name = .returned m1 →
      ∃ user, c1.usersGet name = .ok user ∧
        m1.Username = name ∧ m1.Email = user.Email.getD "" ∧
        m1.Location = user.Location.getD "" := by
    intro c1 m1 h1
    obtain ⟨user, hu, hcase⟩ := NewUserMetrics_returned_cases h1
    refine ⟨user, hu, ?_⟩
    rcases hcase with ⟨_, _, hm⟩ | ⟨_, _, _, hm⟩ <;> rw [hm] <;> exact ⟨rfl, rfl, rfl⟩
  obtain ⟨user, hu, h1, h2, h3⟩ := key c m h
  refine ⟨user, hu, h1, h2, h3, ?_⟩
  intro c2 m2 hsame hret
  obtain ⟨user2, hu2, k1, k2, k3⟩ := key c2 m2 hret
  rw [hsame, hu] at hu2
  cases hu2
  exact ⟨k1.trans h1.symm, k2.trans h2.symm, k3.trans h3.symm⟩

theorem profile_fields_copied_witness :
    NewUserMetrics forksClient "bob" = .returned
      { user := some { Email := none, Location := some "Lagos" }, repos := [],
        Username := "bob", Email := "", Location := "Lagos", Stars := 0,
        AutoredRepos := 0, Languages := some [] } ∧
    ∃ user, forksClient.usersGet "bob" = .ok user ∧
      "bob" = "bob" ∧ "" = user.Email.getD "" ∧ "Lagos" = user.Location.getD "" := by
  obtain ⟨user, hu, h1, h2, h3, _⟩ := profile_fields_copied forksClient "bob"
    { user := some { Email := none, Location := some "Lagos" }, repos := [],
      Username := "bob", Email := "", Location := "Lagos", Stars := 0,
      AutoredRepos := 0, Languages := some [] } (by decide)
  exact ⟨by decide, user, hu, h1, h2, h3⟩

/-- Claim C9: for two listings that are permutations of one another, served for
the same username by services with the same repository details, all fetches
succeeding, `NewUserMetrics` returns in both cases, with the same `Stars` and
the same `AutoredRepos`, and owned collections that are permutations of one
another. -/
theorem aggregate_order_independent (c1 c2 : Client) (name : String) (user1 user2 : User)
    (repos1 repos2 : List Repository)
    (hperm : repos1.Perm repos2)
    (hget : c2.reposGet = c1.reposGet)
    (hu1 : c1.usersGet name = .ok user1)
    (hu2 : c2.usersGet name = .ok user2)
    (hl1 : c1.reposList name listOptions = .ok repos1)
    (hl2 : c2.reposList name listOptions = .ok repos2)
    (hd : ∀ r ∈ repos1, r.GetFork = false → r.GetLanguage ≠ "" →
      ∃ d, c1.reposGet name r.GetName = .ok d) :
    ∃ m1 m2, NewUserMetrics c1 name = .returned m1 ∧
      NewUserMetrics c2 name = .returned m2 ∧
      m1.Stars = m2.Stars ∧ m1.AutoredRepos = m2.AutoredRepos ∧
      m1.repos.Perm m2.repos := by
  have hsame : ∀ r : Repository,
      NewRepoMetrics c2 name r.GetName = NewRepoMetrics c1 name r.GetName := by
    intro r
    simp only [NewRepoMetrics, hget]
  have hd1 : ∀ r ∈ repos1, excluded r = false →
      NewRepoMetrics c1 name r.GetName = .returned (entryFor c1 name r) := by
    intro r hr he
    obtain ⟨h1, h2⟩ := (excluded_eq_false_iff r).mp he
    obtain ⟨d, hdr⟩ := hd r hr h1 h2
    apply NewRepoMetrics_eq_entryFor
    rw [NewRepoMetrics_aborts_iff]
    rintro ⟨err, herr⟩
    rw [hdr] at herr
    cases herr
  have hd2 : ∀ r ∈ repos2, excluded r = false →
      NewRepoMetrics c2 name r.GetName = .returned (entryFor c1 name r) := by
    intro r hr he
    rw [hsame]
    exact hd1 r (hperm.mem_iff.mpr hr) he
  have hq : (qualifying repos1).Perm (qualifying repos2) := hperm.filter _
  have hc : excludedCount repos1 = excludedCount repos2 := (hperm.filter _).length_eq
  refine ⟨_, _, NewUserMetrics_returned (entryFor c1 name) hu1 hl1 hd1,
    NewUserMetrics_returned (entryFor c1 name) hu2 hl2 hd2, ?_, ?_, ?_⟩
  · exact congrArg wrapInt (hq.map _).sum_eq
  · simp only [hc, hperm.length_eq]
  · exact hq.map _

theorem aggregate_order_independent_witness :
    (aliceRepos.Perm aliceRepos.reverse ∧
      aliceClientReversed.reposGet = aliceClient.reposGet ∧
      aliceClient.reposList "alice" listOptions = .ok aliceRepos ∧
      aliceClientReversed.reposList "alice" listOptions = .ok aliceRepos.reverse) ∧
    ∃ m1 m2, NewUserMetrics aliceClient "alice" = .returned m1 ∧
      NewUserMetrics aliceClientReversed "alice" = .returned m2 ∧
      m1.Stars = m2.Stars ∧ m1.AutoredRepos = m2.AutoredRepos ∧
      m1.repos.Perm m2.repos :=
  ⟨⟨(List.reverse_perm aliceRepos).symm, rfl, rfl, rfl⟩,
   aggregate_order_independent aliceClient aliceClientReversed "alice"
     { Email := some "alice@example.org", Location := none }
     { Email := some "alice@example.org", Location := none }
     aliceRepos aliceRepos.reverse (List.reverse_perm aliceRepos).symm rfl rfl rfl rfl rfl
     (by
       intro r hr _ _
       simp only [aliceRepos, List.mem_cons, List.mem_singleton, List.not_mem_nil,
         or_false] at hr
       rcases hr with rfl | rfl | rfl <;> exact ⟨_, rfl⟩)⟩

/-- Claim C10, as the code has it: the test of line 85 reads the language of the
listed repository, and `MainLanguage` is the language of the separate detail
response. Every entry of the owned collection of a returned entity was built
for a listed repository that is not a fork and whose listed language is not
empty, and carries the language of its detail response; so, when each detail
response reports the language that the listing reports for that repository,
every entry has a `MainLanguage` other than the empty string. -/
theorem owned_main_language_nonempty (c : Client) (name : String) (m : UserMetrics)
    (hr : NewUserMetrics c name = .returned m)
    (hagree : ∀ repos, c.reposList name listOptions = .ok repos →
      ∀ r ∈ repos, ∀ d, c.reposGet name r.GetName = .ok d →
        d.GetLanguage = r.GetLanguage) :
    ∀ rm ∈ m.repos, rm.MainLanguage ≠ "" := by
  intro rm hrm
  obtain ⟨user, _, hcase⟩ := NewUserMetrics_returned_cases hr
  rcases hcase with ⟨err, _, hm⟩ | ⟨repos, hl, hd, hm⟩
  · rw [hm] at hrm
    cases hrm
  · rw [hm] at hrm
    simp only [List.mem_map] at hrm
    obtain ⟨r, hrq, hre⟩ := hrm
    obtain ⟨hmem, hex⟩ := mem_qualifying.mp hrq
    have hbuilt := hd r hmem hex
    rw [hre] at hbuilt
    obtain ⟨d, hget, hrmd⟩ := NewRepoMetrics_returned_iff.mp hbuilt
    have hlang : rm.MainLanguage = d.GetLanguage := by rw [hrmd]
    rw [hlang, hagree repos hl r hmem d hget]
    exact ((excluded_eq_false_iff r).mp hex).2

theorem owned_main_language_nonempty_witness :
    (NewUserMetrics aliceClient "alice" = .returned
        { user := some { Email := some "alice@example.org", Location := none },
          repos := [entryFor aliceClient "alice" (mkRepo "a" false "Go" 10)],
          Username := "alice", Email := "alice@example.org", Location := "",
          Stars := 10, AutoredRepos := 1, Languages := some [] } ∧
      entryFor aliceClient "alice" (mkRepo "a" false "Go" 10)
        ∈ [entryFor aliceClient "alice" (mkRepo "a" false "Go" 10)]) ∧
    (entryFor aliceClient "alice" (mkRepo "a" false "Go" 10)).MainLanguage ≠ "" := by
  have hret : NewUserMetrics aliceClient "alice" = .returned
      { user := some { Email := some "alice@example.org", Location := none },
        repos := [entryFor aliceClient "alice" (mkRepo "a" false "Go" 10)],
        Username := "alice", Email := "alice@example.org", Location := "",
        Stars := 10, AutoredRepos := 1, Languages := some [] } := by decide
  have hagree : ∀ repos, aliceClient.reposList "alice" listOptions = .ok repos →
      ∀ r ∈ repos, ∀ d, aliceClient.reposGet "alice" r.GetName = .ok d →
        d.GetLanguage = r.GetLanguage := by
    intro repos hl r hmem d hget
    have hrepos : repos = aliceRepos := by
      have h2 : aliceClient.reposList "alice" listOptions = .ok aliceRepos := rfl
      rw [h2] at hl
      exact (Except.ok.inj hl).symm
    subst hrepos
    have hall : ∀ r ∈ aliceRepos,
        aliceClient.reposGet "alice" r.GetName = .ok r := by
      intro r hr
      simp only [aliceRepos, List.mem_cons, List.mem_singleton, List.not_mem_nil,
        or_false] at hr
      rcases hr with rfl | rfl | rfl <;> rfl
    rw [hall r hmem] at hget
    rw [Except.ok.inj hget]
  exact ⟨⟨hret, List.mem_singleton.mpr rfl⟩,
    owned_main_language_nonempty aliceClient "alice" _ hret hagree _
      (List.mem_singleton.mpr rfl)⟩

/-- Against claim C10 as stated: the service `driftClient` lists repository a of
dave with language Go and answers the detail request without a language; every
fetch succeeds, `NewUserMetrics` returns, and the one entry of the owned
collection has the empty string as `MainLanguage`. -/
theorem owned_main_language_empty_example :
    ∃ m, NewUserMetrics driftClient "dave" = .returned m ∧
      ∃ rm ∈ m.repos, rm.MainLanguage = "" :=
  ⟨_, rfl, _, List.mem_singleton.mpr rfl, rfl⟩

end metrics
